import Mathlib

/-!
Verification development for the ad-quality analyzer
(src/backend/src/analyzer/ad_analyzer.py).

The Python module is shallowly embedded: Python floats are modelled as
rationals, Python ints as `Int` (frame indices, pixel coordinates) or `Nat`
(cache keys, pixel intensities), Python's `int()` cast as truncation toward
zero, and the stable `list.sort` as a stable insertion sort.  Frames are
modelled as grayscale pixel grids (the RGB-to-gray conversion performed by
an external library is treated as part of frame acquisition, since the
analyzer only ever reads gray intensities).  The bounded frame cache is
modelled by its list of resident keys in insertion order; decoding is an
oracle `Int → Option Frame`.
-/

/-! Module-level constants of ad_analyzer.py. -/

/-- Constant MIN_SIZE_RATIO = 0.003 of ad_analyzer.py. -/
def minSizeRatioConst : ℚ := 3 / 1000

/-- Constant MIN_AREA = 1000. -/
def MIN_AREA : Int := 1000

/-- Constant MAX_AREA = 200000. -/
def MAX_AREA : Int := 200000

/-- Constant MIN_CONFIDENCE = 0.7. -/
def MIN_CONFIDENCE : ℚ := 7 / 10

/-- Constant ALLOWED_CLASSES = [0, 1, 2, 3, 4]. -/
def ALLOWED_CLASSES : List Int := [0, 1, 2, 3, 4]

/-- Constant MERGE_IOU_THRESHOLD = 0.15. -/
def MERGE_IOU_THRESHOLD : ℚ := 15 / 100

/-- Constant MAX_TIME_GAP_SECONDS = 1.0 (the module-level constant, which is
what `AdGroupProcessor.merge_groups` actually reads; the instance attribute
`self.max_time_gap_seconds = 2.0` set in `__init__` is never used). -/
def MAX_TIME_GAP_SECONDS : ℚ := 1

/-- Constant MIN_DURATION = 0.05. -/
def MIN_DURATION : ℚ := 5 / 100

/-- Constant MAX_CACHE_SIZE = 10. -/
def MAX_CACHE_SIZE : Nat := 10

/-- Analysis resolution width, `VideoProcessor.scale_width` = 640. -/
def SCALE_WIDTH : Int := 640

/-- Analysis resolution height, `VideoProcessor.scale_height` = 360. -/
def SCALE_HEIGHT : Int := 360

/-- Python `int()` applied to a rational: truncation toward zero.  On each
branch the numerator and denominator are non-negative, where Euclidean
division agrees with truncation. -/
def toIntTrunc (q : ℚ) : Int :=
  if q < 0 then -((-q).num / ((-q).den : Int)) else q.num / (q.den : Int)

/-- Python `abs` on a rational. -/
def qabs (q : ℚ) : ℚ := if q < 0 then -q else q

/-- The `BBox` dataclass: integer x, y, width, height. -/
structure BBox where
  x : Int
  y : Int
  width : Int
  height : Int
deriving DecidableEq, Repr

/-- An ad group (`AdGroup` dataclass): envelope bbox plus the list of
(frame index, member bbox) pairs. -/
structure AdGroup where
  bbox : BBox
  frames : List (Int × BBox)
deriving DecidableEq, Repr

/-- `BBoxMetrics.calculate_iou`: intersection over union of two boxes,
0.0 when the boxes do not overlap or the union is non-positive. -/
def calculate_iou (bbox1 bbox2 : BBox) : ℚ :=
  let xLeft := max bbox1.x bbox2.x
  let yTop := max bbox1.y bbox2.y
  let xRight := min (bbox1.x + bbox1.width) (bbox2.x + bbox2.width)
  let yBottom := min (bbox1.y + bbox1.height) (bbox2.y + bbox2.height)
  if xRight < xLeft ∨ yBottom < yTop then 0
  else
    let intersection := (xRight - xLeft) * (yBottom - yTop)
    let area1 := bbox1.width * bbox1.height
    let area2 := bbox2.width * bbox2.height
    let union := area1 + area2 - intersection
    if 0 < union then (intersection : ℚ) / (union : ℚ) else 0

/-- `BBoxValidator.is_valid`.  The confidence threshold is the one explicit
parameter (the module constant MIN_CONFIDENCE is its production value);
all other thresholds are the module constants.  Mirrors the conjunction at
lines 168-180 of ad_analyzer.py, including the guarded size_norm (0 when
the frame area is not positive). -/
def is_valid (minConfidence : ℚ) (bbox : BBox) (frameWidth frameHeight : Int)
    (confidence : ℚ) (classId : Int) : Bool :=
  let size := bbox.width * bbox.height
  let sizeNorm : ℚ :=
    if 0 < frameWidth * frameHeight then (size : ℚ) / ((frameWidth * frameHeight : Int) : ℚ)
    else 0
  decide (0 ≤ bbox.x) && decide (0 ≤ bbox.y) &&
    decide (bbox.x + bbox.width ≤ frameWidth) &&
    decide (bbox.y + bbox.height ≤ frameHeight) &&
    decide (0 < bbox.width) && decide (0 < bbox.height) &&
    decide (minSizeRatioConst ≤ sizeNorm) &&
    decide (MIN_AREA ≤ size) && decide (size ≤ MAX_AREA) &&
    decide (minConfidence ≤ confidence) && decide (classId ∈ ALLOWED_CLASSES)

/-- `BBoxMetrics.max_bbox`: the first member bbox attaining the maximal area
(numpy argmax returns the first maximal index).  The Python code errors on an
empty list; the embedding returns a junk zero box there (never reached by
callers, which only pass non-empty member lists). -/
def max_bbox (frames : List (Int × BBox)) : BBox :=
  match frames.map Prod.snd with
  | [] => ⟨0, 0, 0, 0⟩
  | b :: rest =>
    rest.foldl (fun best c => if best.width * best.height < c.width * c.height then c else best) b

/-- Python `min(f[0] for f in frames)`; junk 0 on the empty list. -/
def minFrame : List (Int × BBox) → Int
  | [] => 0
  | p :: rest => rest.foldl (fun m q => min m q.1) p.1

/-- Python `max(f[0] for f in frames)`; junk 0 on the empty list. -/
def maxFrame : List (Int × BBox) → Int
  | [] => 0
  | p :: rest => rest.foldl (fun m q => max m q.1) p.1

/-- Stable insertion of a group into a list sorted by earliest member frame:
the inserted element goes in front of the first element with a key not
smaller than its own. -/
def insertByMinFrame (g : AdGroup) : List AdGroup → List AdGroup
  | [] => [g]
  | h :: t =>
    if minFrame g.frames ≤ minFrame h.frames then g :: h :: t
    else h :: insertByMinFrame g t

/-- Python `ad_groups.sort(key=lambda g: min(f[0] for f in g.frames))`,
modelled as a stable insertion sort (Python's sort is stable; a stable sort
by a fixed key is unique, so any stable sort models it). -/
def sortGroups (l : List AdGroup) : List AdGroup := l.foldr insertByMinFrame []

/-- The merge condition of `AdGroupProcessor.merge_groups` (line 397):
the candidate's earliest frame is within `frame_rate * MAX_TIME_GAP_SECONDS`
of the accepted group's latest frame, and the envelope IoU strictly exceeds
MERGE_IOU_THRESHOLD. -/
def shouldMerge (frameRate : ℚ) (last g : AdGroup) : Bool :=
  decide (((minFrame g.frames - maxFrame last.frames : Int) : ℚ) ≤
      frameRate * MAX_TIME_GAP_SECONDS) &&
    decide (MERGE_IOU_THRESHOLD < calculate_iou last.bbox g.bbox)

/-- One iteration of the merge loop.  The accumulator is the accepted list
in reverse (its head is `merged_groups[-1]`): the candidate is absorbed into
the head (members extended, envelope recomputed by `max_bbox`) when
`shouldMerge` holds, otherwise pushed as a new accepted group. -/
def mergeStep (frameRate : ℚ) (acc : List AdGroup) (g : AdGroup) : List AdGroup :=
  match acc with
  | [] => [g]
  | last :: tl =>
    if shouldMerge frameRate last g then
      ⟨max_bbox (last.frames ++ g.frames), last.frames ++ g.frames⟩ :: tl
    else g :: last :: tl

/-- `AdGroupProcessor.merge_groups`: sort by earliest member frame, then a
single left-to-right pass absorbing each group into the most recently
accepted one when `shouldMerge` holds. -/
def merge_groups (frameRate : ℚ) (adGroups : List AdGroup) : List AdGroup :=
  ((sortGroups adGroups).foldl (mergeStep frameRate) []).reverse

/-- Modelled from the spec wording of the Merge Pass: fold left-to-right
over the tracks sorted by earliest member frame, comparing each candidate
only to the most-recently-accepted track (the last element of the accepted
list), absorbing it (append members, recompute the envelope as the
largest-area member) exactly when the temporal-gap and envelope-IoU
conditions both hold, and otherwise accepting it as a new track. -/
def mergeSpecFold (frameRate : ℚ) (accepted : List AdGroup) (g : AdGroup) : List AdGroup :=
  match accepted.getLast? with
  | none => [g]
  | some last =>
    if shouldMerge frameRate last g then
      accepted.dropLast ++ [⟨max_bbox (last.frames ++ g.frames), last.frames ++ g.frames⟩]
    else accepted ++ [g]

/-- The Merge Pass as literally described by the spec, for comparison with
`merge_groups`. -/
def merge_spec (frameRate : ℚ) (adGroups : List AdGroup) : List AdGroup :=
  (sortGroups adGroups).foldl (mergeSpecFold frameRate) []

/-! Frame cache (`VideoProcessor.read_frame`, lines 105-131).  Only the set
of resident keys matters for the eviction claims, so the cache is its key
list in insertion order.  `cacheInsert` models one successfully decoded
request: a hit leaves the cache unchanged; a miss evicts the smallest key
when the cache is full (`min(self.frame_cache.keys())`) and appends the new
key. -/

/-- One successfully decoded frame request against the cache key list. -/
def cacheInsert (cache : List Nat) (frameId : Nat) : List Nat :=
  if frameId ∈ cache then cache
  else
    let cache2 :=
      if MAX_CACHE_SIZE ≤ cache.length then
        match cache.min? with
        | some m => cache.erase m
        | none => cache
      else cache
    cache2 ++ [frameId]

/-- The resident key list after a sequence of successfully decoded requests
starting from an empty cache. -/
def runCache (requests : List Nat) : List Nat := requests.foldl cacheInsert []

/-- A decoded frame at analysis resolution: a grayscale pixel grid.
`rows` is `frame.shape[0]`, `cols` is `frame.shape[1]`. -/
structure Frame where
  rows : Nat
  cols : Nat
  px : Nat → Nat → Nat

/-- `AdAnalyzer` padding constant 0.2. -/
def padding : ℚ := 1 / 5

/-- Position tolerance 0.2 (the literal in the centredness test). -/
def posTolerance : ℚ := 1 / 5

/-- Sampling region left bound: `max(0, int(x - width * padding))`. -/
def padXStart (bbox : BBox) : Int :=
  max 0 (toIntTrunc ((bbox.x : ℚ) - (bbox.width : ℚ) * padding))

/-- Sampling region top bound: `max(0, int(y - height * padding))`. -/
def padYStart (bbox : BBox) : Int :=
  max 0 (toIntTrunc ((bbox.y : ℚ) - (bbox.height : ℚ) * padding))

/-- Sampling region right bound: `min(frame.shape[1], int(x + width * 1.2))`. -/
def padXEnd (f : Frame) (bbox : BBox) : Int :=
  min (f.cols : Int) (toIntTrunc ((bbox.x : ℚ) + (bbox.width : ℚ) * (1 + padding)))

/-- Sampling region bottom bound: `min(frame.shape[0], int(y + height * 1.2))`. -/
def padYEnd (f : Frame) (bbox : BBox) : Int :=
  min (f.rows : Int) (toIntTrunc ((bbox.y : ℚ) + (bbox.height : ℚ) * (1 + padding)))

/-- Gray values of the pixel region `frame[yStart:yEnd, xStart:xEnd]`
(row-major).  Bounds are the already-clipped region bounds, so they are
non-negative and within the grid. -/
def regionVals (f : Frame) (yStart yEnd xStart xEnd : Int) : List Nat :=
  ((List.range (yEnd - yStart).toNat).map (fun i =>
    (List.range (xEnd - xStart).toNat).map (fun j =>
      f.px (yStart.toNat + i) (xStart.toNat + j)))).flatten

/-- Python `min` over a non-empty list of intensities; junk 0 when empty. -/
def natListMin : List Nat → Nat
  | [] => 0
  | a :: t => t.foldl min a

/-- Python `max` over a non-empty list of intensities; junk 0 when empty. -/
def natListMax : List Nat → Nat
  | [] => 0
  | a :: t => t.foldl max a

/-- The metrics dictionary returned by `AdAnalyzer.analyze`. -/
structure AnalyzeMetrics where
  size_norm : ℚ
  contrast_norm : ℚ
  position_score : ℚ
  pos_label : String
deriving DecidableEq, Repr

/-- `AdAnalyzer.analyze`: size, position and Michelson contrast of a bbox
against a frame.  The bbox coordinates are used as given (the caller decides
in which coordinate space they live); size and position use the original
frame dimensions; contrast samples the padded region of `frame`, returning
0.0 when that region is empty. -/
def analyze (originalFrameWidth originalFrameHeight : Int) (frame : Frame)
    (bbox : BBox) : AnalyzeMetrics :=
  let size := bbox.width * bbox.height
  let frameArea := originalFrameWidth * originalFrameHeight
  let sizeNorm : ℚ := if 0 < frameArea then (size : ℚ) / (frameArea : ℚ) else 0
  let centerX : ℚ := (bbox.x : ℚ) + (bbox.width : ℚ) / 2
  let centerY : ℚ := (bbox.y : ℚ) + (bbox.height : ℚ) / 2
  let posScore : ℚ :=
    if qabs (centerX - (originalFrameWidth : ℚ) / 2) < posTolerance * (originalFrameWidth : ℚ) ∧
        qabs (centerY - (originalFrameHeight : ℚ) / 2) < posTolerance * (originalFrameHeight : ℚ)
    then 1 else 1 / 2
  let posLabel : String := if posScore = 1 then "центр" else "периферия"
  let contrastNorm : ℚ :=
    if padXEnd frame bbox ≤ padXStart bbox ∨ padYEnd frame bbox ≤ padYStart bbox then 0
    else
      let vals := regionVals frame (padYStart bbox) (padYEnd frame bbox)
        (padXStart bbox) (padXEnd frame bbox)
      if vals = [] then 0
      else
        ((natListMax vals : ℚ) - (natListMin vals : ℚ)) /
          ((natListMax vals : ℚ) + (natListMin vals : ℚ) + 1 / 1000000)
  ⟨sizeNorm, contrastNorm, posScore, posLabel⟩

/-- The `AdQuality` dataclass. -/
structure AdQuality where
  score : ℚ
  label : String
  recommendation : String
deriving DecidableEq, Repr

/-- `AdAnalyzer.evaluate_quality`: weighted score of the metrics plus the
normalized duration, with the label and recommendation chosen by the score
thresholds 0.5 and 0.75. -/
def evaluate_quality (metrics : AnalyzeMetrics) (duration : ℚ) : AdQuality :=
  let durationNorm := min (duration / 3) 1
  let score := 3 / 10 * metrics.size_norm + 3 / 10 * metrics.position_score +
    1 / 5 * metrics.contrast_norm + 1 / 5 * durationNorm
  if score < 1 / 2 then
    ⟨score, "низкое", "Увеличьте размер, контрастность или длительность."⟩
  else if score < 3 / 4 then
    ⟨score, "среднее", "Попробуйте переместить в центр или улучшить контрастность."⟩
  else
    ⟨score, "высокое", "Параметры оптимальны, сохраните текущие настройки."⟩

/-- `VideoProcessor.scale_bbox`: rescale a detection-resolution bbox to the
fixed 640x360 analysis resolution, truncating each coordinate with `int()`. -/
def scale_bbox (frameWidth frameHeight : Int) (bbox : BBox) : BBox :=
  ⟨toIntTrunc ((bbox.x : ℚ) * ((SCALE_WIDTH : ℚ) / (frameWidth : ℚ))),
    toIntTrunc ((bbox.y : ℚ) * ((SCALE_HEIGHT : ℚ) / (frameHeight : ℚ))),
    toIntTrunc ((bbox.width : ℚ) * ((SCALE_WIDTH : ℚ) / (frameWidth : ℚ))),
    toIntTrunc ((bbox.height : ℚ) * ((SCALE_HEIGHT : ℚ) / (frameHeight : ℚ)))⟩

/-- Group duration as computed in `process_groups` (line 413):
`(max(frame_ids) - min(frame_ids) + 1) / frame_rate` when the member list is
non-empty, 0.0 otherwise. -/
def durationOf (frameRate : ℚ) (g : AdGroup) : ℚ :=
  if g.frames = [] then 0
  else ((maxFrame g.frames - minFrame g.frames + 1 : Int) : ℚ) / frameRate

/-- One output record of `process_groups` (the data interpolated into the
report string). -/
structure QualityRecord where
  pos_label : String
  size_norm : ℚ
  contrast_norm : ℚ
  duration : ℚ
  quality : AdQuality
deriving DecidableEq, Repr

/-- Python `frame_ids[0]`: the frame index of the first member. -/
def firstFrameId (g : AdGroup) : Int :=
  match g.frames with
  | [] => 0
  | p :: _ => p.1

/-- `AdGroupProcessor.process_groups`: for each group in order, compute the
duration, skip the group when the duration is below MIN_DURATION, otherwise
request its first member frame (`readFrame` is the decode-through-cache
oracle), skip the group when the frame is unavailable, and otherwise emit a
record built from `analyze` (applied to the group's envelope bbox exactly as stored,
line 422) and `evaluate_quality`.  Returns the records together with the
list of frame indices actually requested. -/
def process_groups (frameRate : ℚ) (frameWidth frameHeight : Int)
    (readFrame : Int → Option Frame) : List AdGroup → List QualityRecord × List Int
  | [] => ([], [])
  | g :: rest =>
    let tail := process_groups frameRate frameWidth frameHeight readFrame rest
    let duration := durationOf frameRate g
    if duration < MIN_DURATION then tail
    else
      match readFrame (firstFrameId g) with
      | none => (tail.1, firstFrameId g :: tail.2)
      | some frame =>
        let metrics := analyze frameWidth frameHeight frame g.bbox
        let quality := evaluate_quality metrics duration
        (⟨metrics.pos_label, metrics.size_norm, metrics.contrast_norm, duration, quality⟩ :: tail.1,
          firstFrameId g :: tail.2)

/-! Concrete data used by counterexamples and witnesses. -/

/-- A sample single-member group used by concrete witnesses. -/
def sampleGroup : AdGroup := ⟨⟨0, 0, 40, 40⟩, [(1, ⟨0, 0, 40, 40⟩)]⟩

/-- A bbox lying entirely outside a small analysis frame while centred in the
original 1280x720 frame. -/
def outsideBBox : BBox := ⟨700, 400, 100, 100⟩

/-- A tiny uniform analysis frame. -/
def tinyFrame : Frame := ⟨4, 4, fun _ _ => 7⟩

/-- The envelope bbox of the C1 counterexample group, in original 1280x720
detection coordinates. -/
def cexBBox : BBox := ⟨700, 100, 4, 4⟩

/-- A 640x360 analysis-resolution frame with alternating dark and bright rows. -/
def cexFrame : Frame := ⟨360, 640, fun i _ => i % 2 * 200⟩

/-- A group holding cexBBox on frames 0 and 90 (3.03 s at 30 fps). -/
def cexGroup : AdGroup := ⟨cexBBox, [(0, cexBBox), (90, cexBBox)]⟩

/-- First group of the idempotence counterexample. -/
def gA : AdGroup := ⟨⟨0, 0, 10, 10⟩, [(0, ⟨0, 0, 10, 10⟩)]⟩

/-- Second group: touches gA (IoU 0) but overlaps gC. -/
def gB : AdGroup := ⟨⟨10, 10, 10, 10⟩, [(1, ⟨10, 10, 10, 10⟩)]⟩

/-- Third group: its large envelope overlaps both gA and gB with IoU 1/4. -/
def gC : AdGroup := ⟨⟨0, 0, 20, 20⟩, [(2, ⟨0, 0, 20, 20⟩)]⟩

/-- C9: calculate_iou equals intersection over (area1 + area2 − intersection); it is 1.0
on any positive-size box against itself, 0.0 on non-overlapping boxes, and symmetric. -/
theorem calculate_iou_spec :
    (∀ b : BBox, 0 < b.width → 0 < b.height → calculate_iou b b = 1) ∧
    (∀ a b : BBox,
      (a.x + a.width ≤ b.x ∨ b.x + b.width ≤ a.x ∨
        a.y + a.height ≤ b.y ∨ b.y + b.height ≤ a.y) →
      calculate_iou a b = 0) ∧
    (∀ a b : BBox, calculate_iou a b = calculate_iou b a) ∧
    (∀ a b : BBox,
      ¬ (min (a.x + a.width) (b.x + b.width) < max a.x b.x ∨
          min (a.y + a.height) (b.y + b.height) < max a.y b.y) →
      0 < a.width * a.height + b.width * b.height -
        (min (a.x + a.width) (b.x + b.width) - max a.x b.x) *
          (min (a.y + a.height) (b.y + b.height) - max a.y b.y) →
      calculate_iou a b =
        (((min (a.x + a.width) (b.x + b.width) - max a.x b.x) *
            (min (a.y + a.height) (b.y + b.height) - max a.y b.y) : Int) : ℚ) /
          ((a.width * a.height + b.width * b.height -
            (min (a.x + a.width) (b.x + b.width) - max a.x b.x) *
              (min (a.y + a.height) (b.y + b.height) - max a.y b.y) : Int) : ℚ)) := by
  refine ⟨?_, ?_, ?_, ?_⟩
  · intro b hw hh
    simp only [calculate_iou, max_self, min_self, add_sub_cancel_left, add_sub_cancel_right]
    rw [if_neg (by omega), if_pos (by positivity)]
    exact div_self (by exact_mod_cast (mul_pos hw hh).ne')
  · intro a b h
    simp only [calculate_iou]
    split_ifs with h1 h2
    · rfl
    · rw [not_or, not_lt, not_lt] at h1
      have hz : (min (a.x + a.width) (b.x + b.width) - max a.x b.x) *
          (min (a.y + a.height) (b.y + b.height) - max a.y b.y) = 0 := by
        rcases h with h | h | h | h
        · have : min (a.x + a.width) (b.x + b.width) - max a.x b.x = 0 := by omega
          rw [this, zero_mul]
        · have : min (a.x + a.width) (b.x + b.width) - max a.x b.x = 0 := by omega
          rw [this, zero_mul]
        · have : min (a.y + a.height) (b.y + b.height) - max a.y b.y = 0 := by omega
          rw [this, mul_zero]
        · have : min (a.y + a.height) (b.y + b.height) - max a.y b.y = 0 := by omega
          rw [this, mul_zero]
      rw [hz]
      simp
    · rfl
  · intro a b
    simp only [calculate_iou]
    rw [max_comm a.x b.x, max_comm a.y b.y, min_comm (a.x + a.width) (b.x + b.width),
      min_comm (a.y + a.height) (b.y + b.height), add_comm (a.width * a.height) (b.width * b.height)]
  · intro a b h1 h2
    simp only [calculate_iou]
    rw [if_neg h1, if_pos h2]

/-- Witness for calculate_iou_spec at concrete boxes. -/
theorem calculate_iou_spec_witness :
    calculate_iou ⟨0, 0, 2, 3⟩ ⟨0, 0, 2, 3⟩ = 1 ∧ calculate_iou ⟨0, 0, 2, 3⟩ ⟨2, 0, 2, 3⟩ = 0 :=
  ⟨calculate_iou_spec.1 ⟨0, 0, 2, 3⟩ (by norm_num) (by norm_num),
    calculate_iou_spec.2.1 ⟨0, 0, 2, 3⟩ ⟨2, 0, 2, 3⟩ (by norm_num)⟩

/-- C8: is_valid is the conjunction of the geometric, size-ratio, absolute-area,
confidence and class conditions; accepting never grows when the confidence
threshold is raised; a class outside the allow-list is always rejected. -/
theorem is_valid_spec :
    (∀ (minConfidence : ℚ) (b : BBox) (fw fh : Int) (confidence : ℚ) (classId : Int),
      is_valid minConfidence b fw fh confidence classId = true ↔
        (0 ≤ b.x ∧ 0 ≤ b.y ∧ 0 < b.width ∧ 0 < b.height ∧
          b.x + b.width ≤ fw ∧ b.y + b.height ≤ fh ∧
          minSizeRatioConst ≤ ((b.width * b.height : Int) : ℚ) / ((fw * fh : Int) : ℚ) ∧
          MIN_AREA ≤ b.width * b.height ∧ b.width * b.height ≤ MAX_AREA ∧
          minConfidence ≤ confidence ∧ classId ∈ ALLOWED_CLASSES)) ∧
    (∀ (c₁ c₂ : ℚ) (b : BBox) (fw fh : Int) (confidence : ℚ) (classId : Int),
      c₁ ≤ c₂ → is_valid c₂ b fw fh confidence classId = true →
        is_valid c₁ b fw fh confidence classId = true) ∧
    (∀ (minConfidence : ℚ) (b : BBox) (fw fh : Int) (confidence : ℚ) (classId : Int),
      classId ∉ ALLOWED_CLASSES → is_valid minConfidence b fw fh confidence classId = false) := by
  refine ⟨?_, ?_, ?_⟩
  · intro minConfidence b fw fh confidence classId
    simp only [is_valid, Bool.and_eq_true, decide_eq_true_eq, and_assoc]
    constructor
    · rintro ⟨hx, hy, hxw, hyh, hw, hh, hsz, hrest⟩
      have hfw : 0 < fw := by omega
      have hfh : 0 < fh := by omega
      rw [if_pos (mul_pos hfw hfh)] at hsz
      exact ⟨hx, hy, hw, hh, hxw, hyh, hsz, hrest⟩
    · rintro ⟨hx, hy, hw, hh, hxw, hyh, hsz, hrest⟩
      have hfw : 0 < fw := by omega
      have hfh : 0 < fh := by omega
      rw [if_pos (mul_pos hfw hfh)]
      exact ⟨hx, hy, hxw, hyh, hw, hh, hsz, hrest⟩
  · intro c₁ c₂ b fw fh confidence classId hle h
    simp only [is_valid, Bool.and_eq_true, decide_eq_true_eq, and_assoc] at h ⊢
    obtain ⟨hx, hy, hxw, hyh, hw, hh, hsz, hmin, hmax, hconf, hcls⟩ := h
    exact ⟨hx, hy, hxw, hyh, hw, hh, hsz, hmin, hmax, le_trans hle hconf, hcls⟩
  · intro minConfidence b fw fh confidence classId h
    simp only [is_valid]
    rw [decide_eq_false h]
    simp

/-- Witness for is_valid_spec: lowering the threshold from 0.8 to 0.7 keeps a
detection accepted at 0.8, and class 7 is rejected. -/
theorem is_valid_spec_witness :
    is_valid (7 / 10) ⟨0, 0, 100, 100⟩ 640 360 (9 / 10) 0 = true ∧
    is_valid (7 / 10) ⟨0, 0, 100, 100⟩ 640 360 (9 / 10) 7 = false :=
  ⟨is_valid_spec.2.1 (7 / 10) (8 / 10) ⟨0, 0, 100, 100⟩ 640 360 (9 / 10) 0 (by norm_num)
      ((is_valid_spec.1 (8 / 10) ⟨0, 0, 100, 100⟩ 640 360 (9 / 10) 0).mpr
        (by norm_num [minSizeRatioConst, MIN_AREA, MAX_AREA, ALLOWED_CLASSES])),
    is_valid_spec.2.2 (7 / 10) ⟨0, 0, 100, 100⟩ 640 360 (9 / 10) 7
      (by norm_num [ALLOWED_CLASSES])⟩

/-- C7: evaluate_quality computes the weighted score with duration_norm =
min(duration/3, 1), labels it by the 0.5 and 0.75 thresholds, and attains
score 1.0 / "высокое" at all-ones metrics with duration at least 3, and
score 0.0 / "низкое" at all-zero metrics. -/
theorem evaluate_quality_spec :
    (∀ (m : AnalyzeMetrics) (d : ℚ),
      (evaluate_quality m d).score =
        3 / 10 * m.size_norm + 3 / 10 * m.position_score + 1 / 5 * m.contrast_norm +
          1 / 5 * min (d / 3) 1) ∧
    (∀ (m : AnalyzeMetrics) (d : ℚ),
      ((evaluate_quality m d).score < 1 / 2 → (evaluate_quality m d).label = "низкое") ∧
      (1 / 2 ≤ (evaluate_quality m d).score → (evaluate_quality m d).score < 3 / 4 →
        (evaluate_quality m d).label = "среднее") ∧
      (3 / 4 ≤ (evaluate_quality m d).score → (evaluate_quality m d).label = "высокое")) ∧
    (∀ (m : AnalyzeMetrics) (d : ℚ),
      m.size_norm = 1 → m.position_score = 1 → m.contrast_norm = 1 → 3 ≤ d →
        (evaluate_quality m d).score = 1 ∧ (evaluate_quality m d).label = "высокое") ∧
    (∀ (m : AnalyzeMetrics) (d : ℚ),
      m.size_norm = 0 → m.position_score = 0 → m.contrast_norm = 0 → d = 0 →
        (evaluate_quality m d).score = 0 ∧ (evaluate_quality m d).label = "низкое") := by
  refine ⟨?_, ?_, ?_, ?_⟩
  · intro m d
    simp only [evaluate_quality]
    split_ifs <;> rfl
  · intro m d
    simp only [evaluate_quality]
    split_ifs with h1 h2
    · exact ⟨fun _ => rfl, fun hc _ => absurd h1 (not_lt.mpr hc),
        fun hc => absurd h1 (not_lt.mpr (by linarith))⟩
    · exact ⟨fun hc => absurd hc h1, fun _ _ => rfl,
        fun hc => absurd h2 (not_lt.mpr hc)⟩
    · exact ⟨fun hc => absurd hc h1, fun _ hc => absurd hc h2, fun _ => rfl⟩
  · intro m d h1 h2 h3 hd
    have hm : min (d / 3) 1 = 1 := min_eq_right (by linarith)
    simp only [evaluate_quality, h1, h2, h3, hm]
    norm_num
  · intro m d h1 h2 h3 hd
    have hm : min (d / 3) 1 = 0 := by rw [hd]; norm_num
    simp only [evaluate_quality, h1, h2, h3, hm]
    norm_num

/-- Witness for evaluate_quality_spec at the two endpoint metric vectors. -/
theorem evaluate_quality_spec_witness :
    ((evaluate_quality ⟨1, 1, 1, "центр"⟩ 3).score = 1 ∧
      (evaluate_quality ⟨1, 1, 1, "центр"⟩ 3).label = "высокое") ∧
    ((evaluate_quality ⟨0, 0, 0, "центр"⟩ 0).score = 0 ∧
      (evaluate_quality ⟨0, 0, 0, "центр"⟩ 0).label = "низкое") :=
  ⟨evaluate_quality_spec.2.2.1 ⟨1, 1, 1, "центр"⟩ 3 rfl rfl rfl (by norm_num),
    evaluate_quality_spec.2.2.2 ⟨0, 0, 0, "центр"⟩ 0 rfl rfl rfl rfl⟩

/-- C6: the duration of a non-empty group is (max frame − min frame + 1) / frame_rate,
and removing every group whose duration is below MIN_DURATION from the input leaves
the output of process_groups — records and frame requests alike — unchanged, so a
discarded group contributes no record and its frame is never requested. -/
theorem process_groups_duration_filter :
    (∀ (frameRate : ℚ) (g : AdGroup), g.frames ≠ [] →
      durationOf frameRate g =
        ((maxFrame g.frames - minFrame g.frames + 1 : Int) : ℚ) / frameRate) ∧
    (∀ (frameRate : ℚ) (fw fh : Int) (readFrame : Int → Option Frame) (groups : List AdGroup),
      process_groups frameRate fw fh readFrame groups =
        process_groups frameRate fw fh readFrame
          (groups.filter (fun g => decide (MIN_DURATION ≤ durationOf frameRate g)))) := by
  constructor
  · intro frameRate g h
    rw [durationOf, if_neg h]
  · intro frameRate fw fh readFrame groups
    induction groups with
    | nil => rfl
    | cons g rest ih =>
      by_cases hd : durationOf frameRate g < MIN_DURATION
      · have hf : decide (MIN_DURATION ≤ durationOf frameRate g) = false :=
          decide_eq_false (not_le.mpr hd)
        simp only [process_groups, List.filter_cons, hf, if_pos hd, Bool.false_eq_true,
          if_false]
        exact ih
      · have hf : decide (MIN_DURATION ≤ durationOf frameRate g) = true :=
          decide_eq_true (not_lt.mp hd)
        simp only [process_groups, List.filter_cons, hf, if_neg hd, if_true]
        rw [ih]

/-- Witness for process_groups_duration_filter: a one-frame group at 30 fps has
duration 1/30. -/
theorem process_groups_duration_filter_witness :
    durationOf 30 sampleGroup =
      ((maxFrame sampleGroup.frames - minFrame sampleGroup.frames + 1 : Int) : ℚ) / 30 :=
  process_groups_duration_filter.1 30 sampleGroup (by decide)

/-- Helper: as long as the cache stays below capacity, distinct requests are
appended in insertion order with no eviction. -/
theorem foldl_cacheInsert_small :
    ∀ (l acc : List Nat), (acc ++ l).Nodup → acc.length + l.length ≤ MAX_CACHE_SIZE →
      l.foldl cacheInsert acc = acc ++ l := by
  intro l
  induction l with
  | nil => intro acc _ _; simp
  | cons a t ih =>
    intro acc hnd hlen
    have ha : a ∉ acc := by
      rw [List.nodup_append] at hnd
      intro hmem
      exact hnd.2.2 hmem (List.mem_cons_self a t)
    have hlt : ¬ (MAX_CACHE_SIZE ≤ acc.length) := by
      simp only [List.length_cons] at hlen
      omega
    have hstep : cacheInsert acc a = acc ++ [a] := by
      simp only [cacheInsert]
      rw [if_neg ha, if_neg hlt]
    simp only [List.foldl_cons, hstep]
    rw [ih (acc ++ [a])]
    · simp
    · rw [List.append_assoc]
      simpa using hnd
    · simp only [List.length_append, List.length_cons, List.length_nil] at hlen ⊢
      omega

/-- C2 (amended): after capacity+1 distinct successfully decoded requests, exactly
capacity keys are resident, and the evicted key is the smallest among the first
capacity requests (min-key eviction), not the first-inserted one. -/
theorem cache_eviction_min_key :
    ∀ l : List Nat, l.Nodup → l.length = MAX_CACHE_SIZE + 1 →
      (runCache l).length = MAX_CACHE_SIZE ∧
      ∃ m, (l.take MAX_CACHE_SIZE).min? = some m ∧
        runCache l = (l.take MAX_CACHE_SIZE).erase m ++ l.drop MAX_CACHE_SIZE := by
  intro l hnd hlen
  obtain ⟨a, ha⟩ : ∃ a, l.drop MAX_CACHE_SIZE = [a] := by
    rw [← List.length_eq_one]
    rw [List.length_drop, hlen]
    omega
  have hsplit : l = l.take MAX_CACHE_SIZE ++ [a] := by
    conv_lhs => rw [← List.take_append_drop MAX_CACHE_SIZE l]
    rw [ha]
  have htlen : (l.take MAX_CACHE_SIZE).length = MAX_CACHE_SIZE := by
    rw [List.length_take, hlen]
    exact min_eq_left (Nat.le_succ _)
  have hnd2 : ((l.take MAX_CACHE_SIZE) ++ [a]).Nodup := by
    rw [← hsplit]; exact hnd
  have hna : a ∉ l.take MAX_CACHE_SIZE := by
    rw [List.nodup_append] at hnd2
    intro hm
    exact hnd2.2.2 hm (List.mem_singleton.mpr rfl)
  have hrun0 : (l.take MAX_CACHE_SIZE).foldl cacheInsert [] = l.take MAX_CACHE_SIZE := by
    apply foldl_cacheInsert_small
    · simpa using (List.nodup_append.mp hnd2).1
    · simp [htlen]
  have hne : l.take MAX_CACHE_SIZE ≠ [] := by
    intro h0
    rw [h0] at htlen
    simp [MAX_CACHE_SIZE] at htlen
  obtain ⟨m, hm⟩ : ∃ m, (l.take MAX_CACHE_SIZE).min? = some m := by
    cases hcons : l.take MAX_CACHE_SIZE with
    | nil => exact absurd hcons hne
    | cons x xs => exact ⟨xs.foldl min x, by simp [hcons, List.min?]⟩
  have hmem : m ∈ l.take MAX_CACHE_SIZE := List.min?_mem min_choice hm
  have hrun : runCache l = (l.take MAX_CACHE_SIZE).erase m ++ [a] := by
    rw [runCache]
    conv_lhs => rw [hsplit]
    rw [List.foldl_append, hrun0]
    simp only [List.foldl_cons, List.foldl_nil, cacheInsert]
    rw [if_neg hna, if_pos (le_of_eq htlen.symm), hm]
  have hone : 1 ≤ MAX_CACHE_SIZE := by decide
  constructor
  · rw [hrun, List.length_append, List.length_erase_of_mem hmem, htlen]
    simp only [List.length_cons, List.length_nil]
    omega
  · exact ⟨m, hm, by rw [hrun, ha]⟩

/-- Witness for cache_eviction_min_key on the increasing request order 0..10. -/
theorem cache_eviction_min_key_witness :
    (runCache [0, 1, 2, 3, 4, 5, 6, 7, 8, 9, 10]).length = MAX_CACHE_SIZE ∧
    ∃ m, (([0, 1, 2, 3, 4, 5, 6, 7, 8, 9, 10] : List Nat).take MAX_CACHE_SIZE).min? = some m ∧
      runCache [0, 1, 2, 3, 4, 5, 6, 7, 8, 9, 10] =
        (([0, 1, 2, 3, 4, 5, 6, 7, 8, 9, 10] : List Nat).take MAX_CACHE_SIZE).erase m ++
          ([0, 1, 2, 3, 4, 5, 6, 7, 8, 9, 10] : List Nat).drop MAX_CACHE_SIZE :=
  cache_eviction_min_key [0, 1, 2, 3, 4, 5, 6, 7, 8, 9, 10] (by decide) (by decide)

/-- C2 (counterexample): requesting the 11 distinct indices 10,9,...,0 in decreasing
order leaves the first-inserted key 10 resident and evicts 1, refuting
insertion-order eviction for arbitrary request orders. -/
theorem cache_eviction_not_insertion_order :
    ([10, 9, 8, 7, 6, 5, 4, 3, 2, 1, 0] : List Nat).Nodup ∧
    ([10, 9, 8, 7, 6, 5, 4, 3, 2, 1, 0] : List Nat).length = MAX_CACHE_SIZE + 1 ∧
    runCache [10, 9, 8, 7, 6, 5, 4, 3, 2, 1, 0] = [10, 9, 8, 7, 6, 5, 4, 3, 2, 0] ∧
    (10 : Nat) ∈ runCache [10, 9, 8, 7, 6, 5, 4, 3, 2, 1, 0] ∧
    (1 : Nat) ∉ runCache [10, 9, 8, 7, 6, 5, 4, 3, 2, 1, 0] := by
  decide

/-- C3 (amended): when the padded clipped sampling region is empty, analyze sets
contrast_norm to 0.0 and nothing else — there is no fallback to the unpadded
envelope, and the size and position fields are computed from the bbox as usual. -/
theorem analyze_empty_padded_contrast_zero (fw fh : Int) (f : Frame) (b : BBox)
    (h : padXEnd f b ≤ padXStart b ∨ padYEnd f b ≤ padYStart b) :
    (analyze fw fh f b).contrast_norm = 0 := by
  simp only [analyze]
  rw [if_pos h]

/-- Witness for analyze_empty_padded_contrast_zero at a bbox outside the frame. -/
theorem analyze_empty_padded_contrast_zero_witness :
    (analyze 1280 720 tinyFrame outsideBBox).contrast_norm = 0 :=
  analyze_empty_padded_contrast_zero 1280 720 tinyFrame outsideBBox
    (by norm_num [padXStart, padXEnd, toIntTrunc, outsideBBox, tinyFrame, padding])

/-- C3 (counterexample): at outsideBBox on the 4x4 frame both the padded and the
unpadded sampling regions are empty, yet analyze does not return an all-zero
Metrics: the position score is 1.0 and the size fraction is non-zero. -/
theorem analyze_degenerate_not_zero_metrics :
    (padXEnd tinyFrame outsideBBox ≤ padXStart outsideBBox) ∧
    (min (tinyFrame.cols : Int) (outsideBBox.x + outsideBBox.width) ≤ max 0 outsideBBox.x) ∧
    (analyze 1280 720 tinyFrame outsideBBox).position_score = 1 ∧
    (analyze 1280 720 tinyFrame outsideBBox).size_norm ≠ 0 := by
  refine ⟨by norm_num [padXStart, padXEnd, toIntTrunc, outsideBBox, tinyFrame, padding],
    by norm_num [outsideBBox, tinyFrame], ?_, ?_⟩ <;>
    norm_num [analyze, padXStart, padXEnd, padYStart, padYEnd, toIntTrunc, outsideBBox,
      tinyFrame, padding, qabs, posTolerance]

/-- C1: process_groups hands the group's envelope bbox to analyze unscaled.  At
cexGroup over a 1280x720 video the scaled and unscaled bboxes differ; the record
actually produced carries contrast 0.0 because the unscaled coordinates fall
outside the 640x360 analysis frame, while the properly rescaled bbox samples a
non-empty region with non-zero contrast. -/
theorem process_groups_uses_unscaled_bbox :
    scale_bbox 1280 720 cexBBox ≠ cexBBox ∧
    ((process_groups 30 1280 720 (fun _ => some cexFrame) [cexGroup]).1.map
      QualityRecord.contrast_norm) = [0] ∧
    (analyze 1280 720 cexFrame (scale_bbox 1280 720 cexBBox)).contrast_norm ≠ 0 := by
  refine ⟨?_, ?_, ?_⟩
  · norm_num [scale_bbox, toIntTrunc, cexBBox, SCALE_WIDTH, SCALE_HEIGHT]
  · have hd : durationOf 30 ⟨⟨700, 100, 4, 4⟩, [(0, ⟨700, 100, 4, 4⟩), (90, ⟨700, 100, 4, 4⟩)]⟩ =
        91 / 30 := by
      norm_num [durationOf, minFrame, maxFrame]
      decide
    have ha : (analyze 1280 720 ⟨360, 640, fun i _ => i % 2 * 200⟩
        ⟨700, 100, 4, 4⟩).contrast_norm = 0 := by
      norm_num [analyze, padXStart, padXEnd, padYStart, padYEnd, toIntTrunc, padding]
    norm_num [process_groups, cexGroup, cexFrame, cexBBox, hd, ha, firstFrameId, MIN_DURATION]
  · have hr : regionVals ⟨360, 640, fun i _ => i % 2 * 200⟩ 49 52 349 352 =
        [200, 200, 200, 0, 0, 0, 200, 200, 200] := by decide
    norm_num [analyze, padXStart, padXEnd, padYStart, padYEnd, toIntTrunc, cexBBox, cexFrame,
      padding, scale_bbox, SCALE_WIDTH, SCALE_HEIGHT, hr, natListMin, natListMax]
    decide

/-- Helper: one merge-loop step on the reversed accumulator matches the
spec-shaped step on the accepted list. -/
theorem mergeStep_reverse (fr : ℚ) (acc : List AdGroup) (g : AdGroup) :
    (mergeStep fr acc g).reverse = mergeSpecFold fr acc.reverse g := by
  cases acc with
  | nil => rfl
  | cons last tl =>
    simp only [mergeStep, mergeSpecFold, List.reverse_cons]
    rw [List.getLast?_concat]
    by_cases h : shouldMerge fr last g
    · simp [h]
    · simp [h]

/-- Helper: the whole merge loop on the reversed accumulator matches the
spec-shaped fold. -/
theorem foldl_mergeStep_reverse (fr : ℚ) :
    ∀ (xs acc : List AdGroup),
      (xs.foldl (mergeStep fr) acc).reverse = xs.foldl (mergeSpecFold fr) acc.reverse := by
  intro xs
  induction xs with
  | nil => intro acc; rfl
  | cons g t ih =>
    intro acc
    simp only [List.foldl_cons]
    rw [ih, mergeStep_reverse]

/-- Helper: inserting a group is a permutation of consing it. -/
theorem insertByMinFrame_perm (g : AdGroup) (l : List AdGroup) :
    (insertByMinFrame g l).Perm (g :: l) := by
  induction l with
  | nil => simp [insertByMinFrame]
  | cons h t ih =>
    simp only [insertByMinFrame]
    split_ifs with hle
    · exact List.Perm.refl _
    · exact (ih.cons h).trans (List.Perm.swap g h t)

/-- Helper: sortGroups permutes its input. -/
theorem sortGroups_perm (l : List AdGroup) : (sortGroups l).Perm l := by
  induction l with
  | nil => exact List.Perm.refl _
  | cons g t ih =>
    simp only [sortGroups, List.foldr_cons]
    exact (insertByMinFrame_perm g _).trans (ih.cons g)

/-- Helper: inserting into a list sorted by earliest member frame keeps it sorted. -/
theorem sorted_insertByMinFrame (g : AdGroup) (l : List AdGroup)
    (h : l.Sorted (fun a b => minFrame a.frames ≤ minFrame b.frames)) :
    (insertByMinFrame g l).Sorted (fun a b => minFrame a.frames ≤ minFrame b.frames) := by
  induction l with
  | nil => simp [insertByMinFrame]
  | cons x t ih =>
    rw [List.sorted_cons] at h
    simp only [insertByMinFrame]
    split_ifs with hle
    · rw [List.sorted_cons]
      refine ⟨?_, ?_⟩
      · intro b hb
        rcases List.mem_cons.mp hb with rfl | hb2
        · exact hle
        · exact le_trans hle (h.1 b hb2)
      · rw [List.sorted_cons]
        exact h
    · rw [List.sorted_cons]
      refine ⟨?_, ih h.2⟩
      intro b hb
      rcases List.mem_cons.mp ((insertByMinFrame_perm g t).mem_iff.mp hb) with rfl | hb2
      · exact le_of_lt (not_le.mp hle)
      · exact h.1 b hb2

/-- Helper: sortGroups sorts by earliest member frame. -/
theorem sortGroups_sorted (l : List AdGroup) :
    (sortGroups l).Sorted (fun a b => minFrame a.frames ≤ minFrame b.frames) := by
  induction l with
  | nil => simp [sortGroups]
  | cons g t ih =>
    simp only [sortGroups, List.foldr_cons]
    exact sorted_insertByMinFrame g _ ih

/-- C4: merge_groups is exactly the Merge Pass the spec describes — sort by
earliest member frame (a stable permutation, sorted output), then fold
left-to-right comparing each candidate only to the most-recently-accepted
group, absorbing (append members, envelope = largest-area member) precisely
when the temporal gap is within frame_rate * MAX_TIME_GAP_SECONDS and the
envelope IoU exceeds MERGE_IOU_THRESHOLD. -/
theorem merge_groups_eq_spec :
    (∀ (frameRate : ℚ) (l : List AdGroup),
      merge_groups frameRate l = merge_spec frameRate l) ∧
    (∀ l : List AdGroup, (sortGroups l).Perm l ∧
      (sortGroups l).Sorted (fun a b => minFrame a.frames ≤ minFrame b.frames)) := by
  constructor
  · intro fr l
    rw [merge_groups, merge_spec, foldl_mergeStep_reverse]
    rfl
  · intro l
    exact ⟨sortGroups_perm l, sortGroups_sorted l⟩

/-- C5 (counterexample): merge_groups is not idempotent.  On [gA, gB, gC] the
first pass keeps gA separate (IoU(gA, gB) = 0) and absorbs gC into gB, which
enlarges gB's envelope to gC's box; a second pass then merges that group into
gA (IoU now 1/4 > 0.15), changing the output. -/
theorem merge_groups_not_idempotent :
    merge_groups 1 (merge_groups 1 [gA, gB, gC]) ≠ merge_groups 1 [gA, gB, gC] := by
  norm_num [merge_groups, sortGroups, insertByMinFrame, mergeStep, shouldMerge, minFrame,
    maxFrame, calculate_iou, max_bbox, MERGE_IOU_THRESHOLD, MAX_TIME_GAP_SECONDS, gA, gB, gC]

/-- Helper: one merge step grows the accumulator by at most one group. -/
theorem mergeStep_length_le (fr : ℚ) (acc : List AdGroup) (g : AdGroup) :
    (mergeStep fr acc g).length ≤ acc.length + 1 := by
  cases acc with
  | nil => simp [mergeStep]
  | cons last tl =>
    simp only [mergeStep]
    split_ifs <;> simp

/-- Helper: the merge loop never produces more groups than it consumes. -/
theorem foldl_mergeStep_length (fr : ℚ) :
    ∀ (xs acc : List AdGroup), (xs.foldl (mergeStep fr) acc).length ≤ acc.length + xs.length := by
  intro xs
  induction xs with
  | nil => intro acc; simp
  | cons g t ih =>
    intro acc
    simp only [List.foldl_cons, List.length_cons]
    calc (t.foldl (mergeStep fr) (mergeStep fr acc g)).length
        ≤ (mergeStep fr acc g).length + t.length := ih _
      _ ≤ (acc.length + 1) + t.length := by
          exact Nat.add_le_add_right (mergeStep_length_le fr acc g) _
      _ = acc.length + (t.length + 1) := by omega

/-- C5 (amended): merge_groups is a function of its input (deterministic), and a
second run never increases the group count, but it is not a no-op in general
(see the counterexample): re-running can only merge further. -/
theorem merge_groups_rerun_length_le :
    ∀ (frameRate : ℚ) (l : List AdGroup),
      (merge_groups frameRate (merge_groups frameRate l)).length ≤
        (merge_groups frameRate l).length := by
  have hgen : ∀ (fr : ℚ) (l : List AdGroup), (merge_groups fr l).length ≤ l.length := by
    intro fr l
    rw [merge_groups, List.length_reverse]
    calc ((sortGroups l).foldl (mergeStep fr) []).length
        ≤ [].length + (sortGroups l).length := foldl_mergeStep_length fr _ []
      _ = l.length := by
          rw [List.length_nil, Nat.zero_add, (sortGroups_perm l).length_eq]
  intro fr l
  exact hgen fr (merge_groups fr l)

/-- Helper: one merge step preserves the members, as a permutation. -/
theorem mergeStep_flatMap (fr : ℚ) (acc : List AdGroup) (g : AdGroup) :
    ((mergeStep fr acc g).flatMap AdGroup.frames).Perm
      (acc.flatMap AdGroup.frames ++ g.frames) := by
  cases acc with
  | nil => simp [mergeStep]
  | cons last tl =>
    simp only [mergeStep]
    split_ifs with h
    · simp only [List.flatMap_cons]
      rw [List.append_assoc, List.append_assoc]
      exact List.Perm.append_left _ List.perm_append_comm
    · simp only [List.flatMap_cons]
      exact List.perm_append_comm

/-- Helper: the merge loop preserves the members of accumulator plus input. -/
theorem foldl_mergeStep_flatMap (fr : ℚ) :
    ∀ (xs acc : List AdGroup),
      ((xs.foldl (mergeStep fr) acc).flatMap AdGroup.frames).Perm
        (acc.flatMap AdGroup.frames ++ xs.flatMap AdGroup.frames) := by
  intro xs
  induction xs with
  | nil => intro acc; simp
  | cons g t ih =>
    intro acc
    simp only [List.foldl_cons, List.flatMap_cons]
    refine (ih (mergeStep fr acc g)).trans ?_
    refine ((mergeStep_flatMap fr acc g).append_right _).trans ?_
    rw [List.append_assoc]

/-- Helper: the merge loop keeps every member list non-empty. -/
theorem foldl_mergeStep_ne_nil (fr : ℚ) :
    ∀ (xs acc : List AdGroup), (∀ x ∈ acc, x.frames ≠ []) → (∀ x ∈ xs, x.frames ≠ []) →
      ∀ x ∈ xs.foldl (mergeStep fr) acc, x.frames ≠ [] := by
  intro xs
  induction xs with
  | nil => intro acc hacc _ x hx; exact hacc x hx
  | cons g t ih =>
    intro acc hacc hxs x hx
    refine ih (mergeStep fr acc g) ?_ (fun y hy => hxs y (List.mem_cons_of_mem g hy)) x hx
    have hg : g.frames ≠ [] := hxs g (List.mem_cons_self g t)
    intro y hy
    cases acc with
    | nil =>
      simp only [mergeStep, List.mem_singleton] at hy
      rw [hy]; exact hg
    | cons last tl =>
      simp only [mergeStep] at hy
      split_ifs at hy with h
      · rcases List.mem_cons.mp hy with rfl | hy2
        · simp only [ne_eq, List.append_eq_nil]
          intro hcontra
          exact hg hcontra.2
        · exact hacc y (List.mem_cons_of_mem last hy2)
      · rcases List.mem_cons.mp hy with rfl | hy2
        · exact hg
        · exact hacc y hy2

/-- C10: merge_groups preserves the multiset of (frame index, bbox) members —
the concatenated member lists of its output are a permutation of those of its
input — and keeps every output group's member list non-empty. -/
theorem merge_groups_preserves_members :
    ∀ (frameRate : ℚ) (l : List AdGroup), (∀ g ∈ l, g.frames ≠ []) →
      ((merge_groups frameRate l).flatMap AdGroup.frames).Perm (l.flatMap AdGroup.frames) ∧
      ∀ g ∈ merge_groups frameRate l, g.frames ≠ [] := by
  intro fr l h
  constructor
  · rw [merge_groups]
    refine ((((sortGroups l).foldl (mergeStep fr) []).reverse_perm.flatMap_right
      AdGroup.frames).trans ?_)
    refine (foldl_mergeStep_flatMap fr (sortGroups l) []).trans ?_
    simp only [List.flatMap_nil, List.nil_append]
    exact (sortGroups_perm l).flatMap_right AdGroup.frames
  · intro g hg
    rw [merge_groups, List.mem_reverse] at hg
    refine foldl_mergeStep_ne_nil fr (sortGroups l) [] (by simp) ?_ g hg
    intro x hx
    exact h x ((sortGroups_perm l).mem_iff.mp hx)

/-- Witness for merge_groups_preserves_members on a singleton group list. -/
theorem merge_groups_preserves_members_witness :
    ((merge_groups 30 [sampleGroup]).flatMap AdGroup.frames).Perm
      ([sampleGroup].flatMap AdGroup.frames) ∧
    ∀ g ∈ merge_groups 30 [sampleGroup], g.frames ≠ [] :=
  merge_groups_preserves_members 30 [sampleGroup] (by decide)
